import Mathlib

/-!
Verification of the go-flake identifier generator (flake.go).

The Go source is shallowly embedded: uint64 values are modelled as `Nat`
with an explicit `% 2^64` at every operation where Go's uint64 arithmetic
can wrap (the `now++` bump, the `sequence++` increment and the shifts in
the identifier composition).  The clock reading `getTimestamp()` is passed
to each operation explicitly, so that theorems can quantify over arbitrary
clock behaviour.
-/

namespace GoFlake

/-- Modulus of Go's uint64 arithmetic. -/
def U64 : Nat := 2 ^ 64

/-- Constant `HostBits` from flake.go. -/
def HostBits : Nat := 10

/-- Constant `SequenceBits` from flake.go. -/
def SequenceBits : Nat := 13

/-- Variable `MaxWorkerId = (1 << HostBits) - 1` from flake.go (= 1023). -/
def MaxWorkerId : Nat := (1 <<< HostBits) - 1

/-- Variable `MaxSequence = (1 << SequenceBits) - 1` from flake.go (= 8191). -/
def MaxSequence : Nat := (1 <<< SequenceBits) - 1

/-- The mutable state of the `Flake` struct from flake.go (the mutex is
concurrency plumbing and has no sequential meaning). -/
structure Flake where
  prevTime : Nat
  workerId : Nat
  sequence : Nat
deriving DecidableEq, Repr

/-- Constructor `New` from flake.go; `ts` is the value returned by
`getTimestamp()` at construction time. -/
def New (ts : Nat) (workerId : Nat) : Flake :=
  { sequence := 0
    prevTime := ts
    workerId := workerId % MaxWorkerId }

/-- Method `NextId` from flake.go, with the clock reading `now`
(the result of `getTimestamp()`) passed explicitly.  Returns the produced
identifier together with the updated generator state. -/
def NextId (f : Flake) (now : Nat) : Nat × Flake :=
  let s1 := if now ≤ f.prevTime then (f.sequence + 1) % U64 else 0
  let n1 := if now ≤ f.prevTime then f.prevTime else now
  let s2 := if s1 > MaxSequence then 0 else s1
  let n2 := if s1 > MaxSequence then (n1 + 1) % U64 else n1
  let timestamp := (n2 <<< (HostBits + SequenceBits)) % U64
  let workerId := (f.workerId <<< SequenceBits) % U64
  (timestamp ||| workerId ||| s2, { f with prevTime := n2, sequence := s2 })

/-- A sequence of sequential `NextId` calls, one per clock reading in `ts`;
returns the list of produced identifiers and the final state. -/
def runNextId (f : Flake) : List Nat → List Nat × Flake
  | [] => ([], f)
  | t :: ts =>
    let r := NextId f t
    let rest := runNextId r.2 ts
    (r.1 :: rest.1, rest.2)

/-- The identifier encoding with no wraparound: timestamp in bits 63–23,
worker id in bits 22–13, sequence in bits 12–0. -/
def encode (p w s : Nat) : Nat := p * 2 ^ 23 + w * 2 ^ 13 + s

/-- The value of a generator state under the identifier encoding. -/
def encodeState (f : Flake) : Nat := encode f.prevTime f.workerId f.sequence

/-- Checks that the stored timestamp stays inside the 41-bit window after
every call of a run (so no shift in the identifier composition wraps). -/
def inWindow (f : Flake) : List Nat → Bool
  | [] => true
  | t :: ts => decide ((NextId f t).2.prevTime < 2 ^ 41) && inWindow (NextId f t).2 ts

/-- Digit characters used by `strconv.FormatUint` for bases up to 36:
the string `"0123456789abcdefghijklmnopqrstuvwxyz"` indexed by digit value. -/
def digitChar36 (d : Nat) : Char :=
  "0123456789abcdefghijklmnopqrstuvwxyz".toList.getD d '0'

/-- Digit loop of `strconv.FormatUint` in base 36 (`Id.String` in flake.go):
emits `u % 36` and continues with `u / 36` while `u ≥ 36`; least significant
digit first. -/
def formatDigitsLE (n : Nat) : List Nat :=
  if n < 36 then [n]
  else (n % 36) :: formatDigitsLE (n / 36)
decreasing_by exact Nat.div_lt_self (by omega) (by omega)

/-- Method `Id.String` from flake.go: `strconv.FormatUint(uint64(id), 36)`,
the base-36 rendering with the most significant digit first. -/
def idString (n : Nat) : String :=
  String.mk ((formatDigitsLE n).reverse.map digitChar36)

/-- Modelled from the spec: the value of a base-36 digit character
(`0`–`9`, lowercase `a`–`z`), as used when "parsing the base-36 string back
as a 64-bit unsigned integer"; the parser itself is not part of this
repository. -/
def digitVal36 (c : Char) : Nat :=
  if 48 ≤ c.toNat ∧ c.toNat ≤ 57 then c.toNat - 48
  else if 97 ≤ c.toNat ∧ c.toNat ≤ 122 then c.toNat - 87
  else 0

/-- Modelled from the spec: parsing a base-36 string (most significant digit
first) as an unsigned integer. -/
def parseBase36 (s : String) : Nat :=
  s.toList.foldl (fun acc c => acc * 36 + digitVal36 c) 0

/-- Value of a little-endian base-36 digit list. -/
def ofDigitsLE : List Nat → Nat
  | [] => 0
  | d :: ds => d + 36 * ofDigitsLE ds

/-- A network address as `getHostId` sees it: `to4` is the byte slice
returned by `net.IP.To4` (4 bytes when the address is IPv4-compatible,
empty otherwise). -/
structure IPAddr where
  to4 : List Nat

/-- Modelled from the spec: the environment `getHostId` runs in — the
results of `os.Hostname` and `net.LookupIP`, which are outside this
repository.  `none` models a call that returns a non-nil error. -/
structure HostEnv where
  hostname : Option String
  lookupIP : String → Option (List IPAddr)

/-- Outcome of `getHostId`: a worker id, an error return, or a runtime
panic (index out of range). -/
inductive HostIdResult where
  | ok (workerId : Nat)
  | err
  | panicked
deriving DecidableEq

/-- Reading of the first four bytes of a byte slice as a 32-bit big-endian
integer (`binary.BigEndian.Uint32`). -/
def bigEndianUint32 (bs : List Nat) : Nat :=
  (bs.getD 0 0 <<< 24) ||| (bs.getD 1 0 <<< 16) ||| (bs.getD 2 0 <<< 8) ||| bs.getD 3 0

/-- Function `getHostId` from flake.go.  `addrs[0]` in the Go source is an
unchecked index: on an empty address list it panics rather than returning
an error. -/
def getHostId (env : HostEnv) : HostIdResult :=
  match env.hostname with
  | none => .err
  | some h =>
    match env.lookupIP h with
    | none => .err
    | some addrs =>
      match addrs with
      | [] => .panicked
      | a :: _ =>
        if a.to4.length < 4 then .err
        else .ok (bigEndianUint32 a.to4)

/-- Outcome of `WithHostId`: a generator, an error return, or a panic
propagated from `getHostId`. -/
inductive WithHostIdResult where
  | ok (g : Flake)
  | err
  | panicked
deriving DecidableEq

/-- Constructor `WithHostId` from flake.go; `ts` is the clock reading used
by the inner call to `New`. -/
def WithHostId (env : HostEnv) (ts : Nat) : WithHostIdResult :=
  match getHostId env with
  | .err => .err
  | .panicked => .panicked
  | .ok w => .ok (New ts w)

-- Basic numeric facts about the constants.

theorem maxWorkerId_eq : MaxWorkerId = 1023 := rfl

theorem maxSequence_eq : MaxSequence = 8191 := rfl

-- The bitwise composition agrees with `encode` when the fields are in range.

theorem compose_eq_encode {p w s : Nat} (hp : p < 2 ^ 41) (hw : w < 2 ^ 10)
    (hs : s < 2 ^ 13) :
    ((p <<< (HostBits + SequenceBits)) % U64) ||| ((w <<< SequenceBits) % U64) ||| s
      = encode p w s := by
  have hps : p <<< (HostBits + SequenceBits) = p * 2 ^ 23 := by
    rw [Nat.shiftLeft_eq]
    norm_num [HostBits, SequenceBits]
  have hws : w <<< SequenceBits = w * 2 ^ 13 := by
    rw [Nat.shiftLeft_eq]
    norm_num [SequenceBits]
  have hpm : p * 2 ^ 23 % U64 = p * 2 ^ 23 := by
    apply Nat.mod_eq_of_lt
    calc p * 2 ^ 23 < (p + 1) * 2 ^ 23 := by omega
      _ ≤ 2 ^ 41 * 2 ^ 23 := Nat.mul_le_mul_right _ hp
      _ ≤ U64 := by norm_num [U64]
  have hwm : w * 2 ^ 13 % U64 = w * 2 ^ 13 := by
    apply Nat.mod_eq_of_lt
    calc w * 2 ^ 13 < (w + 1) * 2 ^ 13 := by omega
      _ ≤ 2 ^ 10 * 2 ^ 13 := Nat.mul_le_mul_right _ hw
      _ ≤ U64 := by norm_num [U64]
  rw [hps, hws, hpm, hwm]
  have h1 : w * 2 ^ 13 ||| s = w * 2 ^ 13 + s := by
    rw [Nat.mul_comm w (2 ^ 13), ← Nat.mul_add_lt_is_or hs]
  have hlow : w * 2 ^ 13 + s < 2 ^ 23 := by
    have : w * 2 ^ 13 ≤ 1023 * 2 ^ 13 := by
      exact Nat.mul_le_mul_right _ (by omega)
    omega
  have h2 : p * 2 ^ 23 ||| (w * 2 ^ 13 + s) = p * 2 ^ 23 + (w * 2 ^ 13 + s) := by
    rw [Nat.mul_comm p (2 ^ 23), ← Nat.mul_add_lt_is_or hlow]
  rw [Nat.or_assoc, h1, h2, encode]
  ring

-- Characterisation of a single NextId step: the produced identifier is the
-- bitwise composition of the new state's fields with the worker id.

theorem nextId_fst (f : Flake) (now : Nat) :
    (NextId f now).1
      = (((NextId f now).2.prevTime <<< (HostBits + SequenceBits)) % U64)
          ||| ((f.workerId <<< SequenceBits) % U64)
          ||| (NextId f now).2.sequence := by
  simp only [NextId]

theorem nextId_workerId (f : Flake) (now : Nat) :
    (NextId f now).2.workerId = f.workerId := by
  simp only [NextId]

-- The stored sequence is at most MaxSequence after every call, whatever the
-- starting state.

theorem nextId_sequence_le (f : Flake) (now : Nat) :
    (NextId f now).2.sequence ≤ MaxSequence := by
  simp only [NextId]
  split <;> split <;> omega

-- The new stored timestamp, explicitly.

theorem nextId_prevTime (f : Flake) (now : Nat) :
    (NextId f now).2.prevTime
      = if (if now ≤ f.prevTime then (f.sequence + 1) % U64 else 0) > MaxSequence
        then ((if now ≤ f.prevTime then f.prevTime else now) + 1) % U64
        else (if now ≤ f.prevTime then f.prevTime else now) := by
  simp only [NextId]

theorem nextId_sequence (f : Flake) (now : Nat) :
    (NextId f now).2.sequence
      = if (if now ≤ f.prevTime then (f.sequence + 1) % U64 else 0) > MaxSequence
        then 0
        else (if now ≤ f.prevTime then (f.sequence + 1) % U64 else 0) := by
  simp only [NextId]

-- Explicit descriptions of the three kinds of step.

theorem maxSequence_lt_u64 : MaxSequence < U64 := by decide

theorem nextId_same_ms {f : Flake} {now : Nat} (hnow : now ≤ f.prevTime)
    (hs : f.sequence + 1 ≤ MaxSequence) :
    (NextId f now).2 = ⟨f.prevTime, f.workerId, f.sequence + 1⟩ := by
  have hU : f.sequence + 1 < U64 := by
    have h1 : MaxSequence = 8191 := rfl
    have h2 : U64 = 18446744073709551616 := by norm_num [U64]
    omega
  simp only [NextId, if_pos hnow, Nat.mod_eq_of_lt hU,
    if_neg (show ¬(f.sequence + 1 > MaxSequence) by omega)]

theorem nextId_rollover {f : Flake} {now : Nat} (hnow : now ≤ f.prevTime)
    (hs : f.sequence = MaxSequence) :
    (NextId f now).2 = ⟨(f.prevTime + 1) % U64, f.workerId, 0⟩ := by
  have hU : f.sequence + 1 < U64 := by
    have h1 : MaxSequence = 8191 := rfl
    have h2 : U64 = 18446744073709551616 := by norm_num [U64]
    omega
  simp only [NextId, if_pos hnow, Nat.mod_eq_of_lt hU,
    if_pos (show f.sequence + 1 > MaxSequence by omega)]

theorem nextId_advance {f : Flake} {now : Nat} (hnow : f.prevTime < now) :
    (NextId f now).2 = ⟨now, f.workerId, 0⟩ := by
  simp only [NextId, if_neg (Nat.not_le.mpr hnow),
    if_neg (show ¬((0 : Nat) > MaxSequence) by decide)]

-- Composition of runs.

theorem runNextId_append (f : Flake) (ts1 ts2 : List Nat) :
    runNextId f (ts1 ++ ts2)
      = ((runNextId f ts1).1 ++ (runNextId (runNextId f ts1).2 ts2).1,
         (runNextId (runNextId f ts1).2 ts2).2) := by
  induction ts1 generalizing f with
  | nil => simp [runNextId]
  | cons t ts ih => simp [runNextId, ih]

-- State reached by a frozen clock: starting from sequence `k`, after `n`
-- same-millisecond calls the sequence is `k + n` (while it stays in range).

theorem runNextId_frozen (T w k n : Nat) (h : k + n ≤ MaxSequence) :
    (runNextId ⟨T, w, k⟩ (List.replicate n T)).2 = ⟨T, w, k + n⟩ := by
  induction n generalizing k with
  | zero => simp [runNextId]
  | succ n ih =>
    rw [List.replicate_succ]
    simp only [runNextId]
    rw [nextId_same_ms (Nat.le_refl T) (show k + 1 ≤ MaxSequence by omega)]
    rw [ih (k + 1) (by omega)]
    congr 1
    omega

-- The produced identifier is the encoding of the updated state (with the
-- unchanged worker id), whenever the fields are in range.

theorem nextId_fst_encode (f : Flake) (now : Nat)
    (hw : f.workerId < 2 ^ 10)
    (hp : (NextId f now).2.prevTime < 2 ^ 41) :
    (NextId f now).1 = encodeState (NextId f now).2 := by
  have hs : (NextId f now).2.sequence < 2 ^ 13 := by
    have := nextId_sequence_le f now
    have : MaxSequence = 8191 := rfl
    omega
  rw [nextId_fst, compose_eq_encode hp hw hs, encodeState, nextId_workerId]

-- The encoding of the state strictly increases at every step, as long as the
-- stored timestamp cannot wrap around 2^64.

theorem encodeState_lt_nextId (f : Flake) (now : Nat)
    (hs : f.sequence ≤ MaxSequence)
    (hp : f.prevTime + 1 < U64) :
    encodeState f < encodeState (NextId f now).2 := by
  have hM : MaxSequence = 8191 := rfl
  rcases Nat.lt_or_ge f.prevTime now with h | h
  · rw [nextId_advance h]
    simp only [encodeState, encode]
    omega
  · rcases (by omega : f.sequence + 1 ≤ MaxSequence ∨ f.sequence = MaxSequence)
      with h1 | h1
    · rw [nextId_same_ms h h1]
      simp only [encodeState, encode]
      omega
    · rw [nextId_rollover h h1, Nat.mod_eq_of_lt hp]
      simp only [encodeState, encode]
      omega

theorem runNextId_chain (f : Flake) (ts : List Nat)
    (hw : f.workerId < 2 ^ 10)
    (hs : f.sequence ≤ MaxSequence)
    (hp : f.prevTime < 2 ^ 41)
    (hb : inWindow f ts = true) :
    List.Chain' (· < ·) (encodeState f :: (runNextId f ts).1) := by
  induction ts generalizing f with
  | nil => simp [runNextId]
  | cons t ts ih =>
    simp only [inWindow, Bool.and_eq_true, decide_eq_true_eq] at hb
    obtain ⟨hb1, hb2⟩ := hb
    simp only [runNextId]
    rw [List.chain'_cons]
    have henc := nextId_fst_encode f t hw hb1
    constructor
    · rw [henc]
      apply encodeState_lt_nextId f t hs
      have : U64 = 18446744073709551616 := by norm_num [U64]
      have : (2 : Nat) ^ 41 = 2199023255552 := by norm_num
      omega
    · rw [henc]
      apply ih (NextId f t).2
      · rw [nextId_workerId]
        exact hw
      · exact nextId_sequence_le f t
      · exact hb1
      · exact hb2

-- Base-36 formatting: the digit loop is left inverse to digit-list value.

theorem ofDigitsLE_format (n : Nat) : ofDigitsLE (formatDigitsLE n) = n := by
  induction n using Nat.strong_induction_on with
  | _ n ih =>
    rw [formatDigitsLE]
    split_ifs with h
    · simp [ofDigitsLE]
    · rw [ofDigitsLE, ih (n / 36) (Nat.div_lt_self (by omega) (by omega))]
      omega

theorem format_digits_lt (n : Nat) : ∀ d ∈ formatDigitsLE n, d < 36 := by
  induction n using Nat.strong_induction_on with
  | _ n ih =>
    rw [formatDigitsLE]
    split_ifs with h
    · simp
      omega
    · intro d hd
      rcases List.mem_cons.mp hd with h1 | h1
      · omega
      · exact ih (n / 36) (Nat.div_lt_self (by omega) (by omega)) d h1

theorem digitVal_digitChar {d : Nat} (h : d < 36) :
    digitVal36 (digitChar36 d) = d := by
  have hall : ∀ x : Fin 36, digitVal36 (digitChar36 x.val) = x.val := by decide
  exact hall ⟨d, h⟩

theorem foldl_digits (ds : List Nat) (hds : ∀ d ∈ ds, d < 36) (a : Nat) :
    List.foldl (fun acc d => acc * 36 + digitVal36 (digitChar36 d)) a ds.reverse
      = a * 36 ^ ds.length + ofDigitsLE ds := by
  induction ds generalizing a with
  | nil => simp [ofDigitsLE]
  | cons d ds ih =>
    simp only [List.reverse_cons, List.foldl_append, List.foldl_cons, List.foldl_nil]
    rw [ih (fun x hx => hds x (List.mem_cons_of_mem _ hx)) a]
    rw [digitVal_digitChar (hds d (List.mem_cons_self _ _))]
    simp only [ofDigitsLE, List.length_cons, pow_succ]
    ring

theorem parse_idString (n : Nat) : parseBase36 (idString n) = n := by
  show ((formatDigitsLE n).reverse.map digitChar36).foldl
      (fun acc c => acc * 36 + digitVal36 c) 0 = n
  rw [List.foldl_map]
  rw [foldl_digits (formatDigitsLE n) (format_digits_lt n) 0]
  rw [ofDigitsLE_format]
  omega

-- The composition without the uint64 reductions (they are invisible when the
-- fields are in range).

theorem compose_nowrap {p w s : Nat} (hp : p < 2 ^ 41) (hw : w < 2 ^ 10)
    (hs : s < 2 ^ 13) :
    (p <<< 23) ||| (w <<< 13) ||| s = encode p w s := by
  have hps : p <<< 23 = p * 2 ^ 23 := by rw [Nat.shiftLeft_eq]
  have hws : w <<< 13 = w * 2 ^ 13 := by rw [Nat.shiftLeft_eq]
  rw [hps, hws]
  have h1 : w * 2 ^ 13 ||| s = w * 2 ^ 13 + s := by
    rw [Nat.mul_comm w (2 ^ 13), ← Nat.mul_add_lt_is_or hs]
  have hlow : w * 2 ^ 13 + s < 2 ^ 23 := by
    have : w * 2 ^ 13 ≤ 1023 * 2 ^ 13 := Nat.mul_le_mul_right _ (by omega)
    omega
  have h2 : p * 2 ^ 23 ||| (w * 2 ^ 13 + s) = p * 2 ^ 23 + (w * 2 ^ 13 + s) := by
    rw [Nat.mul_comm p (2 ^ 23), ← Nat.mul_add_lt_is_or hlow]
  rw [Nat.or_assoc, h1, h2, encode]
  ring

/-- C3: every identifier returned by NextId is the bitwise composition
`(now << 23) | (workerId << 13) | sequence` of the chosen timestamp (the
updated `prevTime`), the stored worker id and the chosen sequence (the
updated `sequence`); equivalently, bits 63–23 hold the timestamp, bits
22–13 the worker id and bits 12–0 the sequence, provided the state is in
range (worker id below 2^10 and the chosen timestamp inside the 41-bit
window). -/
theorem claim_C3_bit_composition (f : Flake) (now : Nat)
    (hw : f.workerId < 2 ^ 10)
    (hp : (NextId f now).2.prevTime < 2 ^ 41) :
    (NextId f now).1
        = ((NextId f now).2.prevTime <<< 23) ||| (f.workerId <<< 13)
            ||| (NextId f now).2.sequence
      ∧ (NextId f now).1 >>> 23 = (NextId f now).2.prevTime
      ∧ ((NextId f now).1 >>> 13) % 2 ^ 10 = f.workerId
      ∧ (NextId f now).1 % 2 ^ 13 = (NextId f now).2.sequence := by
  have hs : (NextId f now).2.sequence < 2 ^ 13 := by
    have h1 := nextId_sequence_le f now
    have h2 : MaxSequence = 8191 := rfl
    omega
  have henc := nextId_fst_encode f now hw hp
  rw [henc, encodeState, nextId_workerId]
  refine ⟨(compose_nowrap hp hw hs).symm, ?_, ?_, ?_⟩
  · rw [Nat.shiftRight_eq_div_pow, encode]
    omega
  · rw [Nat.shiftRight_eq_div_pow, encode]
    omega
  · rw [encode]
    omega

theorem claim_C3_witness :
    ((New 7 5).workerId < 2 ^ 10 ∧ (NextId (New 7 5) 42).2.prevTime < 2 ^ 41)
      ∧ ((NextId (New 7 5) 42).1
            = ((NextId (New 7 5) 42).2.prevTime <<< 23) ||| ((New 7 5).workerId <<< 13)
                ||| (NextId (New 7 5) 42).2.sequence
          ∧ (NextId (New 7 5) 42).1 >>> 23 = (NextId (New 7 5) 42).2.prevTime
          ∧ ((NextId (New 7 5) 42).1 >>> 13) % 2 ^ 10 = (New 7 5).workerId
          ∧ (NextId (New 7 5) 42).1 % 2 ^ 13 = (NextId (New 7 5) 42).2.sequence) :=
  ⟨⟨by decide, by decide⟩, claim_C3_bit_composition (New 7 5) 42 (by decide) (by decide)⟩

/-- C4: construction does not reduce the worker id modulo 1024 as the
package documentation ("uses IP modulo 2^10") and the spec state: `New`
computes `workerId % MaxWorkerId` with `MaxWorkerId = 2^10 - 1 = 1023`.
For the input 1034 the stored worker id is `1034 % 1023 = 11`, not
`1034 % 1024 = 10`, and bits 22–13 of a produced identifier show 11. -/
theorem claim_C4_workerId_modulo :
    (New 0 1034).workerId = 11
      ∧ 1034 % 1024 = 10
      ∧ ((NextId (New 0 1034) 1).1 >>> 13) % 2 ^ 10 = 11 := by
  refine ⟨by decide, by decide, by decide⟩

/-- C5 (amended): the generator's stored timestamp must lie strictly before
the frozen instant for the stated value to come out: for a generator with
worker id 3, stored sequence 0 and stored timestamp before epoch+5000ms, a
call with the clock at epoch+5000ms returns exactly
`(5000 << 23) | (3 << 13) | 0`.  (If the generator was itself constructed
at the frozen instant, its stored timestamp equals 5000 and the call
returns sequence 1 instead — see the counterexample.) -/
theorem claim_C5_bit_decomposition (f : Flake)
    (hw : f.workerId = 3) (hs : f.sequence = 0) (hp : f.prevTime < 5000) :
    (NextId f 5000).1 = (5000 <<< 23) ||| (3 <<< 13) ||| 0 := by
  have hpost : (NextId f 5000).2 = ⟨5000, 3, 0⟩ := by
    rw [nextId_advance hp, hw]
  have henc := nextId_fst_encode f 5000 (by rw [hw]; decide) (by rw [hpost]; decide)
  rw [henc, hpost]
  exact (compose_nowrap (by decide) (by decide) (by decide)).symm

theorem claim_C5_witness :
    ((⟨0, 3, 0⟩ : Flake).workerId = 3 ∧ (⟨0, 3, 0⟩ : Flake).sequence = 0
        ∧ (⟨0, 3, 0⟩ : Flake).prevTime < 5000)
      ∧ (NextId ⟨0, 3, 0⟩ 5000).1 = (5000 <<< 23) ||| (3 <<< 13) ||| 0 :=
  ⟨⟨rfl, rfl, by decide⟩, claim_C5_bit_decomposition ⟨0, 3, 0⟩ rfl rfl (by decide)⟩

/-- C5 counterexample: with the clock frozen at epoch+5000ms already during
construction, the stored timestamp equals 5000, so the call takes the
same-millisecond branch and returns sequence 1, not the claimed value. -/
theorem claim_C5_counterexample :
    ¬ ((NextId (New 5000 3) 5000).1 = (5000 <<< 23) ||| (3 <<< 13) ||| 0) := by
  decide

/-- C8: NextId is total and error-free: it is a plain function of the state
and the clock reading — for every state and every clock value it returns an
identifier below 2^64 together with an updated state, with no error result
and no partial operation on any path. -/
theorem claim_C8_total (f : Flake) (now : Nat) :
    ∃ id g, NextId f now = (id, g) ∧ id < U64 ∧ g.sequence ≤ MaxSequence := by
  refine ⟨(NextId f now).1, (NextId f now).2, rfl, ?_, nextId_sequence_le f now⟩
  rw [nextId_fst]
  show _ < 2 ^ 64
  apply Nat.or_lt_two_pow
  · apply Nat.or_lt_two_pow
    · exact Nat.mod_lt _ (by norm_num [U64])
    · exact Nat.mod_lt _ (by norm_num [U64])
  · have h1 := nextId_sequence_le f now
    have h2 : MaxSequence = 8191 := rfl
    omega

/-- C9: NextId never writes the workerId field: after any call the stored
worker id is exactly what it was before the call (only prevTime and
sequence are updated). -/
theorem claim_C9_workerId_frame (f : Flake) (now : Nat) :
    (NextId f now).2.workerId = f.workerId :=
  nextId_workerId f now

/-- C1 (amended): for every sequence of sequential NextId calls on one
generator the returned values are strictly increasing, provided every
timestamp the calls store stays inside the 41-bit window (`inWindow`), so
that the 64-bit shift in the composition cannot wrap.  Without that
restriction the claim fails — see the counterexample, where a huge clock
reading overflows the timestamp field. -/
theorem claim_C1_strictly_increasing (f : Flake) (ts : List Nat)
    (hw : f.workerId < 2 ^ 10)
    (hs : f.sequence ≤ MaxSequence)
    (hp : f.prevTime < 2 ^ 41)
    (hb : inWindow f ts = true) :
    List.Chain' (· < ·) (runNextId f ts).1 :=
  (runNextId_chain f ts hw hs hp hb).tail

theorem claim_C1_witness :
    ((New 0 3).workerId < 2 ^ 10 ∧ (New 0 3).sequence ≤ MaxSequence
        ∧ (New 0 3).prevTime < 2 ^ 41 ∧ inWindow (New 0 3) [5, 5, 7, 2] = true)
      ∧ List.Chain' (· < ·) (runNextId (New 0 3) [5, 5, 7, 2]).1 :=
  ⟨⟨by decide, by decide, by decide, by decide⟩,
    claim_C1_strictly_increasing (New 0 3) [5, 5, 7, 2]
      (by decide) (by decide) (by decide) (by decide)⟩

/-- C1 counterexample: the clock source is a uint64 and may return any
value; a reading of 2^41 overflows the 64-bit composition
(`2^41 <<< 23 ≡ 0 mod 2^64`) and the two returned identifiers are not
strictly increasing. -/
theorem claim_C1_counterexample :
    ¬ List.Chain' (· < ·) (runNextId (New 5 0) [5, 2 ^ 41]).1 := by
  intro hch
  have hout : (runNextId (New 5 0) [5, 2 ^ 41]).1 = [41943041, 0] := by decide
  rw [hout, List.chain'_cons] at hch
  exact absurd hch.1 (by decide)

/-- C2 (amended): from a generator freshly constructed under a clock frozen
at T, construction already stores T as the previous timestamp, so the first
call takes the same-millisecond branch: calls 1..8191 return sequences
1..8191 at timestamp T, and it is the 8192nd call (not the 8193rd) that
rolls over, returning an identifier whose timestamp field is exactly T+1
and whose sequence field is 0. -/
theorem claim_C2_sequence_rollover (T w : Nat) (hT : T + 1 < 2 ^ 41) :
    (NextId (runNextId (New T w) (List.replicate 8191 T)).2 T).1 >>> 23 = T + 1
      ∧ (NextId (runNextId (New T w) (List.replicate 8191 T)).2 T).1 % 2 ^ 13 = 0 := by
  have hw' : w % MaxWorkerId < 2 ^ 10 := by
    have h1 := Nat.mod_lt w (show 0 < MaxWorkerId by decide)
    have h2 : MaxWorkerId = 1023 := rfl
    omega
  have hst : (runNextId (New T w) (List.replicate 8191 T)).2
      = ⟨T, w % MaxWorkerId, 8191⟩ := by
    have h := runNextId_frozen T (w % MaxWorkerId) 0 8191 (by decide)
    rw [Nat.zero_add] at h
    exact h
  rw [hst]
  have hmod : (T + 1) % U64 = T + 1 := by
    apply Nat.mod_eq_of_lt
    have : U64 = 18446744073709551616 := by norm_num [U64]
    have : (2 : Nat) ^ 41 = 2199023255552 := by norm_num
    omega
  have hroll : (NextId (⟨T, w % MaxWorkerId, 8191⟩ : Flake) T).2
      = ⟨T + 1, w % MaxWorkerId, 0⟩ := by
    rw [nextId_rollover (Nat.le_refl T) rfl, hmod]
  have hp' : (NextId (⟨T, w % MaxWorkerId, 8191⟩ : Flake) T).2.prevTime < 2 ^ 41 := by
    rw [hroll]
    exact hT
  have henc := nextId_fst_encode ⟨T, w % MaxWorkerId, 8191⟩ T hw' hp'
  rw [henc, hroll]
  simp only [encodeState, encode]
  constructor
  · rw [Nat.shiftRight_eq_div_pow]
    omega
  · omega

theorem claim_C2_witness :
    (0 + 1 < 2 ^ 41)
      ∧ ((NextId (runNextId (New 0 9) (List.replicate 8191 0)).2 0).1 >>> 23 = 0 + 1
          ∧ (NextId (runNextId (New 0 9) (List.replicate 8191 0)).2 0).1 % 2 ^ 13 = 0) :=
  ⟨by decide, claim_C2_sequence_rollover 0 9 (by decide)⟩

/-- C2 counterexample: with the clock frozen at 100 from construction on,
the 8193rd call returns sequence field 1 (the rollover already happened at
the 8192nd call), so the claimed conjunction fails. -/
theorem claim_C2_counterexample :
    ¬ ((NextId (runNextId (New 100 1) (List.replicate 8192 100)).2 100).1 >>> 23 = 100 + 1
        ∧ (NextId (runNextId (New 100 1) (List.replicate 8192 100)).2 100).1 % 2 ^ 13 = 0) := by
  have h1 : (runNextId (New 100 1) (List.replicate 8192 100)).2 = ⟨101, 1, 0⟩ := by
    have e : List.replicate 8192 (100 : Nat)
        = List.replicate 8191 100 ++ List.replicate 1 100 := by
      rw [← List.replicate_add]
    rw [e, runNextId_append]
    have h2 : (runNextId (New 100 1) (List.replicate 8191 100)).2 = ⟨100, 1, 8191⟩ := by
      have h3 := runNextId_frozen 100 1 0 8191 (by decide)
      rw [Nat.zero_add] at h3
      exact h3
    rw [h2]
    decide
  rw [h1]
  decide

/-- C10 (amended): after every NextId call the stored sequence is at most
8191 (unconditionally), and the stored timestamp never decreases provided
incrementing it cannot wrap uint64 (`prevTime + 1 < 2^64`); at the wrap
boundary the `now++` bump rolls the stored timestamp over to 0 — see the
counterexample. -/
theorem claim_C10_state_invariant (f : Flake) (now : Nat) :
    (NextId f now).2.sequence ≤ MaxSequence
      ∧ (f.prevTime + 1 < U64 → f.prevTime ≤ (NextId f now).2.prevTime) := by
  refine ⟨nextId_sequence_le f now, ?_⟩
  intro hp
  rw [nextId_prevTime]
  have hM : MaxSequence = 8191 := rfl
  simp only [U64] at hp ⊢
  split_ifs <;> omega

theorem claim_C10_witness :
    ((⟨5, 2, 3⟩ : Flake).prevTime + 1 < U64)
      ∧ ((NextId ⟨5, 2, 3⟩ 9).2.sequence ≤ MaxSequence
          ∧ (⟨5, 2, 3⟩ : Flake).prevTime ≤ (NextId ⟨5, 2, 3⟩ 9).2.prevTime) :=
  ⟨by decide,
    ⟨(claim_C10_state_invariant ⟨5, 2, 3⟩ 9).1,
      (claim_C10_state_invariant ⟨5, 2, 3⟩ 9).2 (by decide)⟩⟩

/-- C10 counterexample: a generator whose stored timestamp is the largest
uint64 (reachable by constructing under a clock reading of 2^64 - 1, i.e. a
system clock before the 2015 epoch cast to uint64) exhausts its sequence
after 8191 frozen calls; the 8192nd call bumps the timestamp, which wraps
to 0, so the stored timestamp decreases. -/
theorem claim_C10_counterexample :
    ¬ ((runNextId (New (U64 - 1) 0) (List.replicate 8191 (U64 - 1))).2.prevTime
        ≤ (NextId (runNextId (New (U64 - 1) 0)
            (List.replicate 8191 (U64 - 1))).2 (U64 - 1)).2.prevTime) := by
  have h : (runNextId (New (U64 - 1) 0) (List.replicate 8191 (U64 - 1))).2
      = ⟨U64 - 1, 0, 8191⟩ := by
    have h3 := runNextId_frozen (U64 - 1) 0 0 8191 (by decide)
    rw [Nat.zero_add] at h3
    exact h3
  rw [h, nextId_rollover (Nat.le_refl _) rfl]
  show ¬ (U64 - 1 ≤ (U64 - 1 + 1) % U64)
  norm_num [U64]

/-- C6: Id.String renders the identifier in base 36 (lowercase), parsing
that string back as a base-36 unsigned integer reproduces the value
exactly, value 0 renders as "0" and value 36 renders as "10". -/
theorem claim_C6_base36_roundtrip :
    (∀ v : Nat, parseBase36 (idString v) = v)
      ∧ idString 0 = "0" ∧ idString 36 = "10" := by
  have h0 : formatDigitsLE 0 = [0] := by
    rw [formatDigitsLE]
    norm_num
  have h1 : formatDigitsLE 1 = [1] := by
    rw [formatDigitsLE]
    norm_num
  have h36 : formatDigitsLE 36 = [0, 1] := by
    rw [formatDigitsLE]
    norm_num [h1]
  refine ⟨parse_idString, ?_, ?_⟩
  · simp only [idString, h0]
    decide
  · simp only [idString, h36]
    decide

/-- C7 (amended): host-derived construction returns a `ResolutionError`
(and no generator) exactly when the hostname cannot be resolved, the
address lookup fails, or the first resolved address is not IPv4-compatible
(fewer than 4 bytes); when the lookup succeeds with an IPv4-compatible
first address the worker id is its 4 octets read as a 32-bit big-endian
integer (before modulo reduction).  The case the claim describes as "the
address lookup returns no addresses" differs: on a successful lookup with
an empty address list the code indexes `addrs[0]` unchecked and panics
instead of returning an error — see the counterexample. -/
theorem claim_C7_host_resolution (env : HostEnv) (ts : Nat) :
    (getHostId env = .err ↔
        env.hostname = none
        ∨ (∃ h, env.hostname = some h ∧ env.lookupIP h = none)
        ∨ (∃ h a rest, env.hostname = some h ∧ env.lookupIP h = some (a :: rest)
            ∧ a.to4.length < 4))
      ∧ (∀ h a rest, env.hostname = some h → env.lookupIP h = some (a :: rest) →
          4 ≤ a.to4.length →
          getHostId env = .ok (bigEndianUint32 a.to4)
            ∧ WithHostId env ts = .ok (New ts (bigEndianUint32 a.to4)))
      ∧ (getHostId env = .err → WithHostId env ts = .err) := by
  refine ⟨⟨?_, ?_⟩, ?_, ?_⟩
  · intro he
    rcases hhn : env.hostname with _ | h
    · exact Or.inl rfl
    · rcases hlk : env.lookupIP h with _ | addrs
      · exact Or.inr (Or.inl ⟨h, rfl, hlk⟩)
      · rcases addrs with _ | ⟨a, rest⟩
        · exfalso
          simp only [getHostId, hhn, hlk] at he
          exact HostIdResult.noConfusion he
        · by_cases hlen : a.to4.length < 4
          · exact Or.inr (Or.inr ⟨h, a, rest, rfl, hlk, hlen⟩)
          · exfalso
            simp only [getHostId, hhn, hlk, if_neg hlen] at he
            exact HostIdResult.noConfusion he
  · intro hd
    rcases hd with hd | ⟨h, hh, hl⟩ | ⟨h, a, rest, hh, hl, hlen⟩
    · simp only [getHostId, hd]
    · simp only [getHostId, hh, hl]
    · simp only [getHostId, hh, hl, if_pos hlen]
  · intro h a rest hh hl hlen
    have hok : getHostId env = .ok (bigEndianUint32 a.to4) := by
      simp only [getHostId, hh, hl, if_neg (show ¬ a.to4.length < 4 by omega)]
    exact ⟨hok, by simp only [WithHostId, hok]⟩
  · intro he
    simp only [WithHostId, he]

theorem claim_C7_witness :
    getHostId ⟨some "x", fun _ => some [⟨[10, 0, 0, 34]⟩]⟩ = .ok 167772194
      ∧ WithHostId ⟨some "x", fun _ => some [⟨[10, 0, 0, 34]⟩]⟩ 0
          = .ok (New 0 167772194) := by
  have h := (claim_C7_host_resolution
      ⟨some "x", fun _ => some [⟨[10, 0, 0, 34]⟩]⟩ 0).2.1
      "x" ⟨[10, 0, 0, 34]⟩ [] rfl rfl (by decide)
  have hbe : bigEndianUint32 (IPAddr.to4 ⟨[10, 0, 0, 34]⟩) = 167772194 := by decide
  rw [hbe] at h
  exact h

/-- C7 counterexample: a successful lookup that returns an empty address
list makes `getHostId` (and `WithHostId`) panic on `addrs[0]` rather than
return the error the claim requires. -/
theorem claim_C7_counterexample :
    getHostId ⟨some "h", fun _ => some []⟩ = .panicked
      ∧ WithHostId ⟨some "h", fun _ => some []⟩ 0 = .panicked
      ∧ getHostId ⟨some "h", fun _ => some []⟩ ≠ .err := by
  exact ⟨rfl, rfl, by decide⟩

end GoFlake
